import Mathlib

/-!
# Verification of the GX2 command-buffer pool (`gx2_cbpool.cpp`)

Shallow embedding of the command-buffer pool and lease manager from
`src/libdecaf/src/modules/gx2/gx2_cbpool.cpp`.

Pointers into the pool are modelled as natural numbers (word addresses);
the C++ null pointer is the address `0`, so the "ring is empty" sentinel
`sBufferPoolTailPtr == nullptr` becomes `tail = 0`.  Theorems that depend
on the sentinel being distinguishable from a real pool address carry the
hypothesis `0 < base`, which is how every real process runs (the pool is
never allocated at address zero).

A `decaf_check` / `decaf_abort` that fires is modelled as `Except.error ()`.
-/

/-- The mutable ring-region state: the statics `sBufferPoolBase`,
`sBufferPoolEnd`, `sBufferPoolHeadPtr`, `sBufferPoolTailPtr`,
`sBufferPoolSkipped` of `gx2_cbpool.cpp`.  `tail = 0` models
`sBufferPoolTailPtr == nullptr`. -/
structure PoolState where
  base : Nat
  endPtr : Nat
  head : Nat
  tail : Nat
  skipped : Nat
deriving Repr, DecidableEq

/-- The common exit of `allocateFromPool` (gx2_cbpool.cpp:115-120): clamp the
available size to `0x20000` words and advance `head` past the granted range,
returning `(buffer, allocatedSize)`. -/
def grant (availableSize : Nat) (s : PoolState) :
    Except Unit (Option (Nat × Nat) × PoolState) :=
  let allocatedSize := min 0x20000 availableSize
  Except.ok (some (s.head, allocatedSize), { s with head := s.head + allocatedSize })

/-- Function `allocateFromPool(wantedSize, &allocatedSize)` (gx2_cbpool.cpp:68-121).
Returns `Except.error ()` on `decaf_abort`/`decaf_check`, `(none, s)` for the
`return nullptr` paths, and otherwise `(some (buffer, allocatedSize), s)`.
Each branch computes `availableSize` (updating `tail` in the empty case and
`skipped`/`head` in the wraparound case) and ends in the source's common
allocation tail, here the helper `grant`. -/
def allocateFromPool (wantedSize : Nat) (s : PoolState) :
    Except Unit (Option (Nat × Nat) × PoolState) :=
  -- Minimum allocation is 0x100 dwords
  let wanted := max 0x100 wantedSize
  -- decaf_abort("Command buffer allocation greater than entire pool size")
  if wanted > s.endPtr - s.base then
    Except.error ()
  else if s.tail = 0 then
    -- decaf_check(sBufferPoolHeadPtr == sBufferPoolBase)
    if s.head = s.base then
      grant (s.endPtr - s.base) { s with tail := s.head }
    else
      Except.error ()
  else if s.head < s.tail then
    if s.tail - s.head < wanted then
      Except.ok (none, s)
    else
      grant (s.tail - s.head) s
  else if s.endPtr - s.head < wanted then
    if s.tail - s.base < wanted then
      Except.ok (none, s)
    else
      -- record the skipped gap, move head to the pool base
      grant (s.tail - s.base) { s with skipped := s.endPtr - s.head, head := s.base }
  else
    grant (s.endPtr - s.head) s

/-- Function `returnToPool(buffer, usedSize, originalSize)` (gx2_cbpool.cpp:123-138). -/
def returnToPool (buffer usedSize originalSize : Nat) (s : PoolState) :
    Except Unit PoolState :=
  -- decaf_check(originalSize >= usedSize)
  if usedSize ≤ originalSize then
    if originalSize = usedSize then
      Except.ok s
    else
      -- decaf_check(sBufferPoolHeadPtr == buffer + originalSize)
      if s.head = buffer + originalSize then
        Except.ok { s with head := buffer + usedSize }
      else
        Except.error ()
  else
    Except.error ()

/-- Function `freeToPool(buffer, size)` (gx2_cbpool.cpp:140-159). -/
def freeToPool (buffer size : Nat) (s : PoolState) : Except Unit PoolState :=
  -- consume the wrap gap
  let s := if s.tail + s.skipped = s.endPtr then
    { s with skipped := 0, tail := s.base } else s
  -- decaf_check(sBufferPoolTailPtr == buffer)
  if s.tail = buffer then
    let s := { s with tail := s.tail + size }
    if s.tail = s.head then
      Except.ok { s with head := s.base, tail := 0 }
    else
      Except.ok s
  else
    Except.error ()

/-- Helper `align_up(value, alignment)` from `common/align.h`: round `value` up to a
multiple of `alignment`.  The source computes
`(value + alignment - 1) & ~(alignment - 1)` for a power-of-two alignment,
which agrees with subtracting the remainder. -/
def align_up (value alignment : Nat) : Nat :=
  (value + alignment - 1) - (value + alignment - 1) % alignment

/-- The 32-bit `byte_swap` from `common/bitutils.h`: reverse the four bytes. -/
def byte_swap (v : Nat) : Nat :=
  let v := v % 0x100000000
  (v % 0x100) * 0x1000000 + (v / 0x100 % 0x100) * 0x10000 +
    (v / 0x10000 % 0x100) * 0x100 + v / 0x1000000 % 0x100

/-- Guest memory, word-addressed: address `a` holds the 32-bit word `mem a`. -/
def Mem : Type := Nat → Nat

/-- Store word `v` at word address `i`. -/
def writeMem (mem : Mem) (i v : Nat) : Mem :=
  fun j => if j = i then v else mem j

namespace pm4

/-- Structure `pm4::Buffer` (from `gpu/pm4_buffer.h`), as used by `gx2_cbpool.cpp`:
the descriptor for one command buffer.  The free-list link `next` is not
modelled (the descriptor identity does not affect the pool's word-level
behaviour). -/
structure Buffer where
  displayList : Bool
  submitTime : Nat
  curSize : Nat
  maxSize : Nat
  buffer : Nat
deriving Repr, DecidableEq

end pm4

/-- The body of `padCommandBuffer`'s while loop (gx2_cbpool.cpp:342-344):
`buffer->buffer[buffer->curSize++] = byte_swap(0xBEEF2929);` executed
`fuel` times, starting at relative index `cur` into the buffer at `bufPtr`.
The caller passes `fuel = alignedSize - curSize`, which is exactly the
number of iterations of `while (buffer->curSize < alignedSize)`. -/
def padLoop (bufPtr : Nat) (mem : Mem) (cur fuel : Nat) : Mem × Nat :=
  match fuel with
  | 0 => (mem, cur)
  | Nat.succ fuel =>
    padLoop bufPtr (writeMem mem (bufPtr + cur) (byte_swap 0xBEEF2929)) (cur + 1) fuel

/-- Function `padCommandBuffer(buffer)` (gx2_cbpool.cpp:334-345).  Pads `curSize` up to
`align_up(curSize, 32 / 4)` with the filler word; `decaf_check(alignedSize <=
buffer->maxSize)` is the abort. -/
def padCommandBuffer (cb : pm4.Buffer) (mem : Mem) : Except Unit (pm4.Buffer × Mem) :=
  -- Display list is meant to be padded to 32 bytes
  let alignedSize := align_up cb.curSize (32 / 4)
  if alignedSize ≤ cb.maxSize then
    let r := padLoop cb.buffer mem cb.curSize (alignedSize - cb.curSize)
    Except.ok ({ cb with curSize := r.2 }, r.1)
  else
    Except.error ()

/-- The pool statics together with the lease flag `sBufferPoolLeased`. -/
structure CBState where
  pool : PoolState
  leased : Bool
deriving Repr, DecidableEq

/-- Outcome of `allocateCommandBuffer` (gx2_cbpool.cpp:195-232).  The retry
loop waits on `GX2WaitTimeStamp` whenever `allocateFromPool` returns null;
one failed attempt is modelled as `blocked` (the pure pool state cannot
change while this thread waits, so the loop is not unrolled further). -/
inductive AllocCBResult where
  | aborted
  | warnNil (st : CBState)
  | blocked (st : CBState)
  | success (cb : pm4.Buffer) (st : CBState)
deriving Repr, DecidableEq

/-- Function `allocateCommandBuffer(size)` (gx2_cbpool.cpp:195-232), with the current
core and the main graphics core passed explicitly. -/
def allocateCommandBuffer (core mainCoreId size : Nat) (st : CBState) : AllocCBResult :=
  -- decaf_check(!sBufferPoolLeased)
  if st.leased then
    AllocCBResult.aborted
  else
    -- Only the main core can have command buffers
    if mainCoreId ≠ core then
      AllocCBResult.warnNil st
    else
      match allocateFromPool size st.pool with
      | Except.error () => AllocCBResult.aborted
      | Except.ok (none, s₁) => AllocCBResult.blocked { st with pool := s₁ }
      | Except.ok (some (allocatedBuffer, allocatedSize), s₁) =>
        AllocCBResult.success
          { displayList := false, submitTime := 0, curSize := 0,
            maxSize := allocatedSize, buffer := allocatedBuffer }
          { pool := s₁, leased := true }

/-- The field assignments of `initCommandBufferPool` (gx2_cbpool.cpp:60-63):
`sBufferPoolBase/End/HeadPtr/TailPtr` are set; `sBufferPoolSkipped` and
`sBufferPoolLeased` are left at their prior values. -/
def initPoolState (base size : Nat) (st : CBState) : CBState :=
  { pool := { base := base, endPtr := base + size, head := base, tail := 0,
              skipped := st.pool.skipped },
    leased := st.leased }

/-- Function `initCommandBufferPool(base, size)` (gx2_cbpool.cpp:53-66):
`decaf_check` of the core, the field assignments, then the initial
`allocateCommandBuffer(0x100)` whose result becomes the active buffer. -/
def initCommandBufferPool (core mainCoreId base size : Nat) (st : CBState) :
    Except Unit AllocCBResult :=
  if mainCoreId = core then
    Except.ok (allocateCommandBuffer core mainCoreId 0x100 (initPoolState base size st))
  else
    Except.error ()

/-- What `flushActiveCommandBuffer` did with the descriptor: released it back
to the object pool (`curSize = 0`) or handed it to `gpu::queueCommandBuffer`. -/
inductive FlushOut where
  | freed
  | queued (cb : pm4.Buffer)
deriving Repr, DecidableEq

/-- Function `flushActiveCommandBuffer()` (gx2_cbpool.cpp:250-278) acting on this
core's active buffer; returns the queue action, the new active buffer
(always `none`) and the new pool/lease state. -/
def flushActiveCommandBuffer (active : Option pm4.Buffer) (st : CBState) :
    Except Unit (FlushOut × Option pm4.Buffer × CBState) :=
  match active with
  | none => Except.error ()                 -- decaf_check(cb)
  | some cb =>
    if cb.displayList then
      Except.error ()                       -- decaf_check(!cb->displayList)
    else if st.leased then
      match returnToPool cb.buffer cb.curSize cb.maxSize st.pool with
      | Except.error () => Except.error ()
      | Except.ok pool₁ =>
        let cb := { cb with maxSize := cb.curSize }
        Except.ok ((if cb.curSize = 0 then FlushOut.freed else FlushOut.queued cb),
          none, { pool := pool₁, leased := false })
    else
      Except.error ()                       -- decaf_check(sBufferPoolLeased)

/-- Outcome of `flushCommandBuffer`: either the display-list branch (same
descriptor, migrated storage, padded memory) or the pool branch
(queue action of the old buffer plus the allocation that becomes the new
active buffer). -/
inductive FlushCBResult where
  | display (cb : pm4.Buffer) (mem : Mem)
  | pool (out : FlushOut) (alloc : AllocCBResult)

/-- Function `flushCommandBuffer(neededSize)` (gx2_cbpool.cpp:280-317).
`displayListOverrun` is the external guest callback
`(oldList, usedBytes, neededBytes) ↦ (newList, newBytes)`. -/
def flushCommandBuffer (neededSize core mainCoreId : Nat) (active : Option pm4.Buffer)
    (mem : Mem) (displayListOverrun : Nat → Nat → Nat → Nat × Nat) (st : CBState) :
    Except Unit FlushCBResult :=
  match active with
  | none => Except.error ()                 -- decaf_check(cb)
  | some cb =>
    if cb.displayList then
      -- End the active display list
      match padCommandBuffer cb mem with
      | Except.error () => Except.error ()
      | Except.ok (cb₁, mem₁) =>
        -- Ask user to allocate new display list
        let r := displayListOverrun cb₁.buffer (cb₁.curSize * 4) (neededSize * 4)
        if r.1 = 0 ∨ r.2 = 0 then
          Except.error ()                   -- decaf_abort display list overrun
        else
          Except.ok (FlushCBResult.display
            { cb₁ with buffer := r.1, curSize := 0, maxSize := r.2 / 4 } mem₁)
    else
      -- Flush the existing buffer, then allocate the new active buffer
      match flushActiveCommandBuffer (some cb) st with
      | Except.error () => Except.error ()
      | Except.ok (out, _, st₁) =>
        Except.ok (FlushCBResult.pool out (allocateCommandBuffer core mainCoreId neededSize st₁))

/-- Run a sequence of `allocateFromPool` calls, recording each granted
`(buffer, allocatedSize)` pair; any abort or null return fails the run. -/
def runAllocs (ws : List Nat) (s : PoolState) :
    Except Unit (List (Nat × Nat) × PoolState) :=
  match ws with
  | [] => Except.ok ([], s)
  | w :: ws =>
    match allocateFromPool w s with
    | Except.error () => Except.error ()
    | Except.ok (none, _) => Except.error ()
    | Except.ok (some bs, s₁) =>
      match runAllocs ws s₁ with
      | Except.error () => Except.error ()
      | Except.ok (l, s₂) => Except.ok (bs :: l, s₂)

/-- Run a sequence of `freeToPool` calls on `(buffer, size)` pairs. -/
def runFrees (l : List (Nat × Nat)) (s : PoolState) : Except Unit PoolState :=
  match l with
  | [] => Except.ok s
  | (b, n) :: l =>
    match freeToPool b n s with
    | Except.error () => Except.error ()
    | Except.ok s₁ => runFrees l s₁

/-- Sum of the granted sizes of a list of `(buffer, size)` leases. -/
def totalWords : List (Nat × Nat) → Nat
  | [] => 0
  | (_, n) :: l => n + totalWords l

/-- The `(buffer, size)` pairs form a gapless chain of positive-size ranges
starting at `h`: each buffer starts where the previous one ended. -/
def chainFrom (h : Nat) : List (Nat × Nat) → Prop
  | [] => True
  | (b, n) :: l => b = h ∧ 0 < n ∧ chainFrom (h + n) l

/-- The ring invariant maintained by the pool operations under valid use:
when the ring is empty the stale `skipped` still fits between `base` and
`endPtr`; when it is non-empty, `tail` and `head` lie in the pool and the
recorded gap fits before `endPtr`. -/
def ringInv (s : PoolState) : Prop :=
  (s.tail = 0 ∧ s.base + s.skipped ≤ s.endPtr) ∨
  (s.base ≤ s.tail ∧ s.tail + s.skipped ≤ s.endPtr ∧ s.base ≤ s.head ∧ s.head ≤ s.endPtr)

instance (s : PoolState) : Decidable (ringInv s) := by
  unfold ringInv; infer_instance

/-- The state property of spec §8.3 with the corrected bound `head ≤ endPtr`
(`head = endPtr` is reached whenever an allocation consumes the trailing
segment exactly). -/
def ringOk (s : PoolState) : Prop :=
  s.tail = 0 ∨ (s.tail + s.skipped ≤ s.endPtr ∧ s.base ≤ s.head ∧ s.head ≤ s.endPtr)

instance (s : PoolState) : Decidable (ringOk s) := by
  unfold ringOk; infer_instance

theorem ringInv_ringOk (s : PoolState) (h : ringInv s) : ringOk s := by
  unfold ringInv at h
  unfold ringOk
  omega

theorem ringInv_allocateFromPool (w : Nat) (s : PoolState) (r : Option (Nat × Nat))
    (s' : PoolState) (hinv : ringInv s)
    (h : allocateFromPool w s = Except.ok (r, s')) : ringInv s' := by
  unfold ringInv at hinv ⊢
  simp only [allocateFromPool, grant] at h
  repeat' split at h
  all_goals (try (exact Except.noConfusion h))
  all_goals
    (simp only [Except.ok.injEq, Prod.mk.injEq] at h
     obtain ⟨h1, h2⟩ := h
     subst h2
     try dsimp only
     omega)

theorem ringInv_returnToPool (buffer used original : Nat) (s s' : PoolState)
    (hinv : ringInv s) (hb : s.base ≤ buffer)
    (h : returnToPool buffer used original s = Except.ok s') : ringInv s' := by
  unfold ringInv at hinv ⊢
  simp only [returnToPool] at h
  repeat' split at h
  all_goals (try (exact Except.noConfusion h))
  all_goals
    (simp only [Except.ok.injEq] at h
     subst h
     try dsimp only
     omega)

/-- Function `freeToPool` written as one decision tree over the pre-state, used to
reason about its callers: the wrap-gap reset is substituted into the
FIFO check and the tail advance. -/
theorem freeToPool_unfold (buffer size : Nat) (s : PoolState) :
    freeToPool buffer size s =
      (if (if s.tail + s.skipped = s.endPtr then s.base else s.tail) = buffer then
        if (if s.tail + s.skipped = s.endPtr then s.base else s.tail) + size = s.head then
          Except.ok { s with head := s.base, tail := 0,
                             skipped := if s.tail + s.skipped = s.endPtr then 0
                                        else s.skipped }
        else
          Except.ok { s with tail := (if s.tail + s.skipped = s.endPtr then s.base
                                      else s.tail) + size,
                             skipped := if s.tail + s.skipped = s.endPtr then 0
                                        else s.skipped }
      else Except.error ()) := by
  by_cases hr : s.tail + s.skipped = s.endPtr
  · simp only [freeToPool, if_pos hr]
  · simp only [freeToPool, if_neg hr]

theorem ringInv_freeToPool (buffer size : Nat) (s s' : PoolState)
    (hinv : ringInv s) (ht : s.tail ≠ 0)
    (hgap : (if s.tail + s.skipped = s.endPtr then s.base else s.tail) + size +
        (if s.tail + s.skipped = s.endPtr then 0 else s.skipped) ≤ s.endPtr)
    (h : freeToPool buffer size s = Except.ok s') : ringInv s' := by
  rw [freeToPool_unfold] at h
  unfold ringInv at hinv ⊢
  by_cases hr : s.tail + s.skipped = s.endPtr
  · simp only [if_pos hr] at h hgap
    repeat' split at h
    all_goals (try (exact Except.noConfusion h))
    all_goals
      (simp only [Except.ok.injEq] at h
       subst h
       try dsimp only
       omega)
  · simp only [if_neg hr] at h hgap
    repeat' split at h
    all_goals (try (exact Except.noConfusion h))
    all_goals
      (simp only [Except.ok.injEq] at h
       subst h
       try dsimp only
       omega)

/-! ## Claim C1: the ring-bound property after pool operations -/

/-- Counterexample to C1: from the pristine ring over `[1, 1025)` — which
satisfies the claim's own invariant — a single successful `allocateFromPool`
grants the whole 1024-word pool and leaves `head = endPtr = 1025` with
`tail = 1 ≠ sentinel`, so `head ∈ [base, endPtr)` fails (`head < endPtr` is
violated; only `head ≤ endPtr` holds). -/
theorem allocateFromPool_head_reaches_endPtr :
    ringInv ⟨1, 1025, 1, 0, 0⟩ ∧
    allocateFromPool 0 ⟨1, 1025, 1, 0, 0⟩ =
      Except.ok (some (1, 1024), ⟨1, 1025, 1025, 1, 0⟩) ∧
    (⟨1, 1025, 1025, 1, 0⟩ : PoolState).tail ≠ 0 ∧
    ¬ ((⟨1, 1025, 1025, 1, 0⟩ : PoolState).head <
        (⟨1, 1025, 1025, 1, 0⟩ : PoolState).endPtr) :=
  ⟨by decide, by rfl, by decide, by decide⟩

/-- C1 (amended): starting from a state satisfying the ring invariant
`ringInv`, after any non-aborting `allocateFromPool`, any non-aborting
`returnToPool` whose buffer pointer lies in the pool (`base ≤ buffer`), or
any non-aborting `freeToPool` on a non-empty ring whose freed range stays
below the (possibly just reset) skipped gap, the state satisfies: either
`tail = sentinel`, or `tail + skipped ≤ endPtr` and `head ∈ [base, endPtr]`
(the upper bound is `≤`, not `<`). -/
theorem pool_ops_preserve_ringOk :
    (∀ w s r s', ringInv s →
      allocateFromPool w s = Except.ok (r, s') → ringOk s') ∧
    (∀ buffer used original s s', ringInv s → s.base ≤ buffer →
      returnToPool buffer used original s = Except.ok s' → ringOk s') ∧
    (∀ buffer size s s', ringInv s → s.tail ≠ 0 →
      (if s.tail + s.skipped = s.endPtr then s.base else s.tail) + size +
        (if s.tail + s.skipped = s.endPtr then 0 else s.skipped) ≤ s.endPtr →
      freeToPool buffer size s = Except.ok s' → ringOk s') :=
  ⟨fun w s r s' hinv h => ringInv_ringOk s' (ringInv_allocateFromPool w s r s' hinv h),
   fun buffer used original s s' hinv hb h =>
     ringInv_ringOk s' (ringInv_returnToPool buffer used original s s' hinv hb h),
   fun buffer size s s' hinv ht hgap h =>
     ringInv_ringOk s' (ringInv_freeToPool buffer size s s' hinv ht hgap h)⟩

/-- Witness for C1 (amended): one allocation, one return, one free, each on a
concrete state, all landing in `ringOk`. -/
theorem pool_ops_preserve_ringOk_witness :
    ringOk ⟨1, 1025, 1025, 1, 0⟩ ∧ ringOk ⟨1, 1025, 4, 1, 0⟩ ∧
      ringOk ⟨1, 1025, 1, 0, 0⟩ :=
  ⟨pool_ops_preserve_ringOk.1 0 ⟨1, 1025, 1, 0, 0⟩ (some (1, 1024))
      ⟨1, 1025, 1025, 1, 0⟩ (by decide) (by rfl),
   pool_ops_preserve_ringOk.2.1 1 3 1024 ⟨1, 1025, 1025, 1, 0⟩
      ⟨1, 1025, 4, 1, 0⟩ (by decide) (by decide) (by rfl),
   pool_ops_preserve_ringOk.2.2 1 3 ⟨1, 1025, 4, 1, 0⟩
      ⟨1, 1025, 1, 0, 0⟩ (by decide) (by decide) (by decide) (by rfl)⟩

theorem align_up_ge (v : Nat) : v ≤ align_up v 8 := by
  unfold align_up
  have h : (v + 8 - 1) % 8 < 8 := Nat.mod_lt _ (by norm_num)
  omega

theorem align_up_mod (v : Nat) : align_up v 8 % 8 = 0 := by
  unfold align_up
  omega

/-- Addresses outside the written range `[p + cur, p + cur + fuel)` are
untouched by the padding loop. -/
theorem padLoop_out (p : Nat) : ∀ (fuel cur : Nat) (mem : Mem) (a : Nat),
    (∀ j, cur ≤ j → j < cur + fuel → a ≠ p + j) →
    (padLoop p mem cur fuel).1 a = mem a := by
  intro fuel
  induction fuel with
  | zero => intro cur mem a _; simp [padLoop]
  | succ n ih =>
    intro cur mem a hout
    rw [padLoop]
    rw [ih (cur + 1) _ a (fun j h1 h2 => hout j (by omega) (by omega))]
    simp only [writeMem]
    rw [if_neg (hout cur (le_refl _) (by omega))]

/-- Every address in the written range holds the filler word afterwards. -/
theorem padLoop_in (p : Nat) : ∀ (fuel cur : Nat) (mem : Mem) (j : Nat),
    cur ≤ j → j < cur + fuel →
    (padLoop p mem cur fuel).1 (p + j) = byte_swap 0xBEEF2929 := by
  intro fuel
  induction fuel with
  | zero => intro cur mem j h1 h2; omega
  | succ n ih =>
    intro cur mem j h1 h2
    rw [padLoop]
    by_cases hj : cur + 1 ≤ j
    · exact ih (cur + 1) _ j hj (by omega)
    · have hj' : j = cur := by omega
      subst hj'
      rw [padLoop_out p n (j + 1) _ (p + j) (fun k hk1 hk2 => by omega)]
      simp [writeMem]

/-- The loop advances `curSize` by exactly the fuel. -/
theorem padLoop_snd (p : Nat) : ∀ (fuel cur : Nat) (mem : Mem),
    (padLoop p mem cur fuel).2 = cur + fuel := by
  intro fuel
  induction fuel with
  | zero => intro cur mem; simp [padLoop]
  | succ n ih =>
    intro cur mem
    rw [padLoop, ih]
    omega

/-! ## Claim C10: `padCommandBuffer` never overruns the reserved region -/

/-- C10: `padCommandBuffer` aborts unless `align_up(curSize, 32/4) ≤ maxSize`;
when it does not abort the resulting `curSize` is at most `maxSize` and no
word at a relative index `≥ maxSize` is modified. -/
theorem padCommandBuffer_bounds (cb : pm4.Buffer) (mem : Mem) :
    (padCommandBuffer cb mem = Except.error ()
      ↔ ¬ align_up cb.curSize (32 / 4) ≤ cb.maxSize) ∧
    (∀ cb' mem', padCommandBuffer cb mem = Except.ok (cb', mem') →
      cb'.curSize ≤ cb.maxSize ∧
      ∀ a, (∀ j, j < cb.maxSize → a ≠ cb.buffer + j) → mem' a = mem a) := by
  have h84 : (32 : Nat) / 4 = 8 := rfl
  by_cases hle : align_up cb.curSize (32 / 4) ≤ cb.maxSize
  · refine ⟨by simp [padCommandBuffer, hle], ?_⟩
    intro cb' mem' h
    simp only [padCommandBuffer, if_pos hle, Except.ok.injEq, Prod.mk.injEq] at h
    obtain ⟨hcb, hmem⟩ := h
    have hge := align_up_ge cb.curSize
    rw [h84] at hle
    constructor
    · rw [← hcb]
      simp only
      rw [h84, padLoop_snd]
      omega
    · intro a ha
      rw [← hmem, h84]
      apply padLoop_out
      intro j h1 h2 hne
      exact ha j (by omega) hne
  · refine ⟨by simp [padCommandBuffer, hle], ?_⟩
    intro cb' mem' h
    simp [padCommandBuffer, hle] at h

/-- Witness for C10: padding a 5-word buffer with an 8-word reservation
writes only below index 8 and ends with `curSize = 8 ≤ 8`. -/
theorem padCommandBuffer_bounds_witness :
    (⟨true, 0, 8, 8, 0⟩ : pm4.Buffer).curSize ≤ (⟨true, 0, 5, 8, 0⟩ : pm4.Buffer).maxSize ∧
    (∀ a, (∀ j, j < (⟨true, 0, 5, 8, 0⟩ : pm4.Buffer).maxSize →
        a ≠ (⟨true, 0, 5, 8, 0⟩ : pm4.Buffer).buffer + j) →
      (padLoop 0 (fun _ => 0) 5 3).1 a = (fun _ => (0 : Nat)) a) :=
  (padCommandBuffer_bounds ⟨true, 0, 5, 8, 0⟩ (fun _ => 0)).2
    ⟨true, 0, 8, 8, 0⟩ (padLoop 0 (fun _ => 0) 5 3).1 (by rfl)

/-! ## Claim C2: what `padCommandBuffer` writes -/

/-- Counterexample to C2: the code pads to a multiple of `32 / 4 = 8` words,
not 4.  With `curSize = 4` (already a multiple of 4) and `maxSize = 8` the
claim predicts no change, but the code pads to 8 and writes the filler at
index 4. -/
theorem padCommandBuffer_pads_past_4 :
    (padCommandBuffer ⟨true, 0, 4, 8, 0⟩ (fun _ => 0)).map (fun r => r.1.curSize) =
      Except.ok 8 ∧
    (padCommandBuffer ⟨true, 0, 4, 8, 0⟩ (fun _ => 0)).map (fun r => r.2 4) =
      Except.ok (byte_swap 0xBEEF2929) ∧
    (8 : Nat) ≠ 4 :=
  ⟨by rfl, by rfl, by decide⟩

/-- C2 (amended): for every descriptor with `align_up(curSize, 32/4) ≤ maxSize`,
`padCommandBuffer` writes `byte_swap(0xBEEF2929)` at `buffer[curSize]`,
`buffer[curSize+1]`, … until `curSize` is a multiple of 8 words (32 bytes =
8 words of 4 bytes), leaves every other word unchanged, and leaves `curSize`
equal to the old `curSize` rounded up to the next multiple of 8. -/
theorem padCommandBuffer_fills (cb : pm4.Buffer) (mem : Mem)
    (h : align_up cb.curSize (32 / 4) ≤ cb.maxSize) :
    ∃ mem',
      padCommandBuffer cb mem =
        Except.ok ({ cb with curSize := align_up cb.curSize (32 / 4) }, mem') ∧
      (∀ j, cb.curSize ≤ j → j < align_up cb.curSize (32 / 4) →
        mem' (cb.buffer + j) = byte_swap 0xBEEF2929) ∧
      (∀ a, (∀ j, cb.curSize ≤ j → j < align_up cb.curSize (32 / 4) →
          a ≠ cb.buffer + j) → mem' a = mem a) ∧
      align_up cb.curSize (32 / 4) % 8 = 0 := by
  have h84 : (32 : Nat) / 4 = 8 := rfl
  have hge := align_up_ge cb.curSize
  have hsum : cb.curSize + (align_up cb.curSize 8 - cb.curSize) = align_up cb.curSize 8 := by
    omega
  refine ⟨(padLoop cb.buffer mem cb.curSize (align_up cb.curSize (32 / 4) - cb.curSize)).1,
    ?_, ?_, ?_, ?_⟩
  · simp only [padCommandBuffer, if_pos h, h84, padLoop_snd, hsum]
  · intro j h1 h2
    rw [h84] at h2 ⊢
    exact padLoop_in cb.buffer _ _ mem j h1 (by omega)
  · intro a ha
    rw [h84] at ha ⊢
    exact padLoop_out cb.buffer _ _ mem a (fun j h1 h2 => ha j h1 (by omega))
  · rw [h84]
    exact align_up_mod cb.curSize

/-- Witness for C2 (amended): padding a 5-word display list reserved at 8
words fills indices 5, 6, 7 with the filler and ends 8-word aligned. -/
theorem padCommandBuffer_fills_witness :
    ∃ mem',
      padCommandBuffer ⟨true, 0, 5, 8, 3⟩ (fun _ => 0) =
        Except.ok (⟨true, 0, align_up 5 (32 / 4), 8, 3⟩, mem') ∧
      (∀ j, 5 ≤ j → j < align_up 5 (32 / 4) →
        mem' (3 + j) = byte_swap 0xBEEF2929) ∧
      (∀ a, (∀ j, 5 ≤ j → j < align_up 5 (32 / 4) → a ≠ 3 + j) →
        mem' a = (fun _ => (0 : Nat)) a) ∧
      align_up 5 (32 / 4) % 8 = 0 :=
  padCommandBuffer_fills ⟨true, 0, 5, 8, 3⟩ (fun _ => 0) (by decide)

/-! ## Claim C3: the pool-backed branch of `flushCommandBuffer` -/

/-- Counterexample to C3: the pool-backed branch of `flushCommandBuffer`
(gx2_cbpool.cpp:310-316) performs no padding — `padCommandBuffer` is called
only in the display-list branch.  A pool-backed buffer with 5 written words
is queued with `curSize = 5`, which is neither 32-byte aligned (a multiple
of 8 words) nor even a multiple of 4 words. -/
theorem flushCommandBuffer_queues_unpadded :
    flushCommandBuffer 0x100 0 0
        (some ⟨false, 0, 5, 5, 1⟩) (fun _ => 0) (fun _ _ _ => (0, 0))
        ⟨⟨1, 1025, 6, 1, 0⟩, true⟩ =
      Except.ok (FlushCBResult.pool
        (FlushOut.queued ⟨false, 0, 5, 5, 1⟩)
        (AllocCBResult.success ⟨false, 0, 0, 1019, 6⟩ ⟨⟨1, 1025, 1025, 1, 0⟩, true⟩)) ∧
    (5 : Nat) % 8 ≠ 0 ∧ (5 : Nat) % 4 ≠ 0 :=
  ⟨by rfl, by decide, by decide⟩

/-- C3 (amended): when `flushCommandBuffer(neededWords)` runs with a
pool-backed active buffer (`displayList = false`, lease outstanding, and the
lease accounting consistent), it does not pad; it calls
`flushActiveCommandBuffer` — which returns the unused words to the pool,
shrinks `maxSize` to `curSize`, frees the descriptor if `curSize = 0` and
queues it otherwise — and then installs the result of
`allocateCommandBuffer(neededWords)` on the post-flush state as the new
active buffer. -/
theorem flushCommandBuffer_pool_branch (needed core mainCoreId : Nat)
    (cb : pm4.Buffer) (mem : Mem) (ov : Nat → Nat → Nat → Nat × Nat) (st : CBState)
    (hd : cb.displayList = false) (hl : st.leased = true)
    (hc : cb.curSize ≤ cb.maxSize)
    (hh : cb.curSize = cb.maxSize ∨ st.pool.head = cb.buffer + cb.maxSize) :
    ∃ st₁,
      flushActiveCommandBuffer (some cb) st =
        Except.ok ((if cb.curSize = 0 then FlushOut.freed
          else FlushOut.queued { cb with maxSize := cb.curSize }), none, st₁) ∧
      flushCommandBuffer needed core mainCoreId (some cb) mem ov st =
        Except.ok (FlushCBResult.pool
          (if cb.curSize = 0 then FlushOut.freed
           else FlushOut.queued { cb with maxSize := cb.curSize })
          (allocateCommandBuffer core mainCoreId needed st₁)) ∧
      st₁.leased = false := by
  have hret : returnToPool cb.buffer cb.curSize cb.maxSize st.pool =
      Except.ok (if cb.curSize = cb.maxSize then st.pool
                 else { st.pool with head := cb.buffer + cb.curSize }) := by
    by_cases hcm : cb.curSize = cb.maxSize
    · simp only [returnToPool, if_pos hc, if_pos hcm.symm, if_pos hcm]
    · have hh₂ : st.pool.head = cb.buffer + cb.maxSize := hh.resolve_left hcm
      simp only [returnToPool, if_pos hc, if_neg (Ne.symm hcm),
        if_pos hh₂, if_neg hcm]
  have hfl : flushActiveCommandBuffer (some cb) st =
      Except.ok ((if cb.curSize = 0 then FlushOut.freed
        else FlushOut.queued { cb with maxSize := cb.curSize }), none,
        ⟨(if cb.curSize = cb.maxSize then st.pool
          else { st.pool with head := cb.buffer + cb.curSize }), false⟩) := by
    simp only [flushActiveCommandBuffer, hd, hl, hret, Bool.false_eq_true,
      if_false, if_true]
  refine ⟨⟨(if cb.curSize = cb.maxSize then st.pool
            else { st.pool with head := cb.buffer + cb.curSize }), false⟩,
    hfl, ?_, rfl⟩
  simp only [flushCommandBuffer, hd, hfl, Bool.false_eq_true, if_false]

/-- Witness for C3 (amended) at a concrete input: flushing a fully written
5-word pool lease queues it unshrunk and installs the next allocation. -/
theorem flushCommandBuffer_pool_branch_witness :
    ∃ st₁,
      flushActiveCommandBuffer (some ⟨false, 0, 5, 5, 1⟩) ⟨⟨1, 1025, 6, 1, 0⟩, true⟩ =
        Except.ok (FlushOut.queued ⟨false, 0, 5, 5, 1⟩, none, st₁) ∧
      flushCommandBuffer 0x100 0 0 (some ⟨false, 0, 5, 5, 1⟩) (fun _ => 0)
          (fun _ _ _ => (0, 0)) ⟨⟨1, 1025, 6, 1, 0⟩, true⟩ =
        Except.ok (FlushCBResult.pool (FlushOut.queued ⟨false, 0, 5, 5, 1⟩)
          (allocateCommandBuffer 0 0 0x100 st₁)) ∧
      st₁.leased = false :=
  flushCommandBuffer_pool_branch 0x100 0 0 ⟨false, 0, 5, 5, 1⟩ (fun _ => 0)
    (fun _ _ _ => (0, 0)) ⟨⟨1, 1025, 6, 1, 0⟩, true⟩ rfl rfl (by decide) (Or.inl rfl)

/-! ## Claim C9: a failed (null-returning) `allocateFromPool` leaves the ring unchanged -/

/-- C9: whenever `allocateFromPool` returns null (only possible when
`tail ≠ sentinel`), the ring state `head`, `tail`, `skipped` is exactly the
state before the call. -/
theorem allocateFromPool_nil_unchanged (w : Nat) (s s' : PoolState)
    (h : allocateFromPool w s = Except.ok (none, s')) :
    s' = s ∧ s.tail ≠ 0 := by
  simp only [allocateFromPool, grant] at h
  repeat' split at h
  all_goals simp_all

/-- Witness for C9 at a concrete input: a ring with one live word of free
space rejects a 256-word request and is returned unchanged. -/
theorem allocateFromPool_nil_unchanged_witness :
    (⟨1, 1025, 1, 2, 0⟩ : PoolState) = ⟨1, 1025, 1, 2, 0⟩ ∧
      (⟨1, 1025, 1, 2, 0⟩ : PoolState).tail ≠ 0 :=
  allocateFromPool_nil_unchanged 0 ⟨1, 1025, 1, 2, 0⟩ ⟨1, 1025, 1, 2, 0⟩ (by rfl)

/-! ## Claim C4: behaviour of `freeToPool` on a non-empty ring -/

/-- C4: for `freeToPool(buffer, size)` with `tail ≠ sentinel`: first, if
`tail + skipped = endPtr` the gap is consumed (`skipped := 0`,
`tail := base`); the call then aborts iff the (possibly reset) tail differs
from `buffer`; otherwise the tail advances by `size`, and if it then equals
`head` the ring resets to the empty state (`head = base`, `tail = sentinel`). -/
theorem freeToPool_characterization (buffer size : Nat) (s : PoolState)
    (ht : s.tail ≠ 0) :
    (freeToPool buffer size s = Except.error ()
      ↔ (if s.tail + s.skipped = s.endPtr then s.base else s.tail) ≠ buffer) ∧
    ((if s.tail + s.skipped = s.endPtr then s.base else s.tail) = buffer →
      freeToPool buffer size s = Except.ok
        (if buffer + size = s.head then
          { s with head := s.base, tail := 0,
                   skipped := if s.tail + s.skipped = s.endPtr then 0 else s.skipped }
        else
          { s with tail := buffer + size,
                   skipped := if s.tail + s.skipped = s.endPtr then 0 else s.skipped })) := by
  simp only [freeToPool]
  by_cases hr : s.tail + s.skipped = s.endPtr <;>
    simp only [hr, if_true, if_false, if_pos, if_neg, not_false_eq_true] <;>
    constructor
  · constructor
    · intro he
      intro hb
      rw [if_pos hb] at he
      split at he <;> simp at he
    · intro hb
      rw [if_neg hb]
  · intro hb
    subst hb
    rw [if_pos rfl]
    split <;> simp_all
  · constructor
    · intro he hb
      rw [if_pos hb] at he
      split at he <;> simp at he
    · intro hb
      rw [if_neg hb]
  · intro hb
    subst hb
    rw [if_pos rfl]
    split <;> simp_all

/-- Witness for C4 at a concrete input: freeing the oldest live buffer of a
non-empty ring. -/
theorem freeToPool_characterization_witness :
    ((freeToPool 1 3 ⟨1, 1025, 900, 1, 0⟩ = Except.error ()
      ↔ (if (1 : Nat) + 0 = 1025 then 1 else 1) ≠ 1) ∧
    ((if (1 : Nat) + 0 = 1025 then 1 else 1) = 1 →
      freeToPool 1 3 ⟨1, 1025, 900, 1, 0⟩ = Except.ok
        (if 1 + 3 = 900 then
          (⟨1, 1025, 1, 0, if (1 : Nat) + 0 = 1025 then 0 else 0⟩ : PoolState)
        else
          (⟨1, 1025, 900, 1 + 3, if (1 : Nat) + 0 = 1025 then 0 else 0⟩ : PoolState)))) :=
  freeToPool_characterization 1 3 ⟨1, 1025, 900, 1, 0⟩ (by decide)

/-! ## Claim C6: behaviour of `returnToPool` -/

/-- Counterexample to C6: with `usedWords = originalWords` the source returns
early (gx2_cbpool.cpp:132-134) without checking `head = buffer + original`,
so a call with `head ≠ buffer + originalWords` does not abort. -/
theorem returnToPool_no_abort_on_equal_sizes :
    returnToPool 0 5 5 ⟨1, 1025, 7, 0, 0⟩ = Except.ok ⟨1, 1025, 7, 0, 0⟩ ∧
      (⟨1, 1025, 7, 0, 0⟩ : PoolState).head ≠ 0 + 5 :=
  ⟨by rfl, by decide⟩

/-- C6 (amended): for `usedWords < originalWords` the call aborts iff
`head ≠ buffer + originalWords` and otherwise sets `head := buffer + usedWords`;
for `usedWords = originalWords` it returns with the state unchanged and never
aborts. -/
theorem returnToPool_characterization (buffer used original : Nat) (s : PoolState)
    (h : used ≤ original) :
    (used < original →
      (returnToPool buffer used original s = Except.error ()
        ↔ s.head ≠ buffer + original) ∧
      (s.head = buffer + original →
        returnToPool buffer used original s = Except.ok { s with head := buffer + used })) ∧
    (used = original → returnToPool buffer used original s = Except.ok s) := by
  constructor
  · intro hlt
    have hne : ¬ original = used := by omega
    constructor
    · simp only [returnToPool, if_pos h, if_neg hne]
      constructor
      · intro he hh
        rw [if_pos hh] at he
        simp at he
      · intro hh
        rw [if_neg hh]
    · intro hh
      simp only [returnToPool, if_pos h, if_neg hne, if_pos hh]
  · intro heq
    subst heq
    simp [returnToPool, h]

/-- Witness for C6 at concrete inputs: a strict shrink with matching head. -/
theorem returnToPool_characterization_witness :
    ((3 : Nat) < 1024 →
      ((returnToPool 1 3 1024 ⟨1, 1025, 1025, 1, 0⟩ = Except.error ()
        ↔ (⟨1, 1025, 1025, 1, 0⟩ : PoolState).head ≠ 1 + 1024) ∧
      ((⟨1, 1025, 1025, 1, 0⟩ : PoolState).head = 1 + 1024 →
        returnToPool 1 3 1024 ⟨1, 1025, 1025, 1, 0⟩ =
          Except.ok ⟨1, 1025, 1 + 3, 1, 0⟩))) ∧
    ((3 : Nat) = 1024 →
      returnToPool 1 3 1024 ⟨1, 1025, 1025, 1, 0⟩ = Except.ok ⟨1, 1025, 1025, 1, 0⟩) :=
  returnToPool_characterization 1 3 1024 ⟨1, 1025, 1025, 1, 0⟩ (by decide)

/-! ## Claim C8: `allocateCommandBuffer` on a non-main core -/

/-- C8: called on a core other than the main graphics core while no lease is
outstanding, `allocateCommandBuffer` returns null without aborting and
without changing the ring state or the lease flag. -/
theorem allocateCommandBuffer_non_main_core (core mainCoreId size : Nat)
    (st : CBState) (hl : st.leased = false) (hc : mainCoreId ≠ core) :
    allocateCommandBuffer core mainCoreId size st = AllocCBResult.warnNil st := by
  simp [allocateCommandBuffer, hl, hc]

/-- Witness for C8 at a concrete input. -/
theorem allocateCommandBuffer_non_main_core_witness :
    allocateCommandBuffer 1 0 0x100 ⟨⟨1, 1025, 1, 0, 0⟩, false⟩ =
      AllocCBResult.warnNil ⟨⟨1, 1025, 1, 0, 0⟩, false⟩ :=
  allocateCommandBuffer_non_main_core 1 0 0x100 ⟨⟨1, 1025, 1, 0, 0⟩, false⟩ rfl (by decide)

/-! ## Claim C7: what `initCommandBufferPool` initializes -/

/-- Counterexample to C7: `initCommandBufferPool` (gx2_cbpool.cpp:60-63) does
not reset `sBufferPoolSkipped` or `sBufferPoolLeased`; with prior
`skipped = 5` and `leased = true` the state handed to the initial lease
request still has `skipped = 5` and `leased = true`. -/
theorem initCommandBufferPool_stale_fields :
    initCommandBufferPool 0 0 1 1024 ⟨⟨77, 600, 90, 44, 5⟩, true⟩ =
      Except.ok (allocateCommandBuffer 0 0 0x100
        (initPoolState 1 1024 ⟨⟨77, 600, 90, 44, 5⟩, true⟩)) ∧
    (initPoolState 1 1024 ⟨⟨77, 600, 90, 44, 5⟩, true⟩).pool.skipped ≠ 0 ∧
    (initPoolState 1 1024 ⟨⟨77, 600, 90, 44, 5⟩, true⟩).leased ≠ false :=
  ⟨by rfl, by decide, by decide⟩

/-- C7 (amended): on the main graphics core `initCommandBufferPool` sets
`base`, `endPtr = base + size`, `head = base` and `tail = sentinel`, leaves
`skipped` and `leased` at their prior values, and then requests the initial
0x100-word lease via `allocateCommandBuffer` on the state so initialized. -/
theorem initCommandBufferPool_characterization (core mainCoreId base size : Nat)
    (st : CBState) (hc : mainCoreId = core) :
    initCommandBufferPool core mainCoreId base size st =
      Except.ok (allocateCommandBuffer core mainCoreId 0x100 (initPoolState base size st)) ∧
    (initPoolState base size st).pool.base = base ∧
    (initPoolState base size st).pool.endPtr = base + size ∧
    (initPoolState base size st).pool.head = base ∧
    (initPoolState base size st).pool.tail = 0 ∧
    (initPoolState base size st).pool.skipped = st.pool.skipped ∧
    (initPoolState base size st).leased = st.leased :=
  ⟨by simp [initCommandBufferPool, hc], rfl, rfl, rfl, rfl, rfl, rfl⟩

/-- Witness for C7 (amended) at a concrete input. -/
theorem initCommandBufferPool_characterization_witness :
    (initCommandBufferPool 0 0 1 0x40000 ⟨⟨0, 0, 0, 0, 0⟩, false⟩ =
      Except.ok (allocateCommandBuffer 0 0 0x100
        (initPoolState 1 0x40000 ⟨⟨0, 0, 0, 0, 0⟩, false⟩))) ∧
    (initPoolState 1 0x40000 ⟨⟨0, 0, 0, 0, 0⟩, false⟩).pool.base = 1 ∧
    (initPoolState 1 0x40000 ⟨⟨0, 0, 0, 0, 0⟩, false⟩).pool.endPtr = 1 + 0x40000 ∧
    (initPoolState 1 0x40000 ⟨⟨0, 0, 0, 0, 0⟩, false⟩).pool.head = 1 ∧
    (initPoolState 1 0x40000 ⟨⟨0, 0, 0, 0, 0⟩, false⟩).pool.tail = 0 ∧
    (initPoolState 1 0x40000 ⟨⟨0, 0, 0, 0, 0⟩, false⟩).pool.skipped =
      (⟨⟨0, 0, 0, 0, 0⟩, false⟩ : CBState).pool.skipped ∧
    (initPoolState 1 0x40000 ⟨⟨0, 0, 0, 0, 0⟩, false⟩).leased =
      (⟨⟨0, 0, 0, 0, 0⟩, false⟩ : CBState).leased :=
  initCommandBufferPool_characterization 0 0 1 0x40000 ⟨⟨0, 0, 0, 0, 0⟩, false⟩ rfl


/-! ## Claim C5: allocate-then-retire round trip returns the ring to empty -/

/-- After a run of successful allocations from a state with `tail = base` and
`skipped = 0`, the grants chain up contiguously from the old `head` and the
final head is their sum, still within the pool. -/
theorem runAllocs_shape (base endPtr : Nat) (hb : 0 < base) :
    ∀ (ws : List Nat) (h : Nat) (l : List (Nat × Nat)) (s' : PoolState),
      base ≤ h → h ≤ endPtr →
      runAllocs ws ⟨base, endPtr, h, base, 0⟩ = Except.ok (l, s') →
      s' = ⟨base, endPtr, h + totalWords l, base, 0⟩ ∧ chainFrom h l ∧
        h + totalWords l ≤ endPtr := by
  intro ws
  induction ws with
  | nil =>
    intro h l s' hbh hhe hrun
    simp only [runAllocs, Except.ok.injEq, Prod.mk.injEq] at hrun
    obtain ⟨h1, h2⟩ := hrun
    subst h1
    subst h2
    exact ⟨by simp [totalWords], by simp [chainFrom], by simp [totalWords]; omega⟩
  | cons w ws ih =>
    intro h l s' hbh hhe hrun
    by_cases habort : max 0x100 w > endPtr - base
    · have hstep : allocateFromPool w ⟨base, endPtr, h, base, 0⟩ = Except.error () := by
        simp only [allocateFromPool, if_pos habort]
      simp only [runAllocs, hstep] at hrun
      exact Except.noConfusion hrun
    · by_cases hfit : endPtr - h < max 0x100 w
      · have hstep : allocateFromPool w ⟨base, endPtr, h, base, 0⟩ =
            Except.ok (none, ⟨base, endPtr, h, base, 0⟩) := by
          simp only [allocateFromPool, grant, if_neg habort,
            if_neg (show ¬ (base = 0) by omega), if_neg (show ¬ (h < base) by omega),
            if_pos hfit, if_pos (show base - base < max 0x100 w by omega)]
        simp only [runAllocs, hstep] at hrun
        exact Except.noConfusion hrun
      · have hstep : allocateFromPool w ⟨base, endPtr, h, base, 0⟩ =
            Except.ok (some (h, min 0x20000 (endPtr - h)),
              ⟨base, endPtr, h + min 0x20000 (endPtr - h), base, 0⟩) := by
          simp only [allocateFromPool, grant, if_neg habort,
            if_neg (show ¬ (base = 0) by omega), if_neg (show ¬ (h < base) by omega),
            if_neg hfit]
        simp only [runAllocs, hstep] at hrun
        cases hrec : runAllocs ws ⟨base, endPtr, h + min 0x20000 (endPtr - h), base, 0⟩ with
        | error e =>
          cases e
          rw [hrec] at hrun
          exact Except.noConfusion hrun
        | ok p =>
          obtain ⟨l', s₂⟩ := p
          rw [hrec] at hrun
          simp only [Except.ok.injEq, Prod.mk.injEq] at hrun
          obtain ⟨h1, h2⟩ := hrun
          subst h1
          subst h2
          have hn0 : 0 < min 0x20000 (endPtr - h) := by omega
          have hhe2 : h + min 0x20000 (endPtr - h) ≤ endPtr := by omega
          obtain ⟨hs₂, hch, hle⟩ :=
            ih (h + min 0x20000 (endPtr - h)) l' s₂ (by omega) hhe2 hrec
          subst hs₂
          refine ⟨?_, ⟨rfl, hn0, hch⟩, ?_⟩
          · simp only [totalWords, PoolState.mk.injEq, true_and, and_true]
            omega
          · simp only [totalWords]
            omega

/-- Retiring a gapless chain of live ranges `[t, H)` in order, with no
recorded wrap gap, empties the ring. -/
theorem runFrees_chain (base endPtr : Nat) (hb : 0 < base) :
    ∀ (l : List (Nat × Nat)) (t H : Nat), 0 < t → chainFrom t l →
      t + totalWords l = H → H ≤ endPtr → l ≠ [] →
      runFrees l ⟨base, endPtr, H, t, 0⟩ = Except.ok ⟨base, endPtr, base, 0, 0⟩ := by
  intro l
  induction l with
  | nil =>
    intro t H _ _ _ _ hne
    exact absurd rfl hne
  | cons bn rest ih =>
    obtain ⟨b, n⟩ := bn
    intro t H ht hch htot hHe _
    obtain ⟨hbt, hn, hch'⟩ := hch
    subst hbt
    cases rest with
    | nil =>
      have hH : b + n = H := by
        simp only [totalWords] at htot
        omega
      have hstep : freeToPool b n ⟨base, endPtr, H, b, 0⟩ =
          Except.ok ⟨base, endPtr, base, 0, 0⟩ := by
        rw [freeToPool_unfold]
        simp only [if_neg (show ¬ ((b : Nat) + 0 = endPtr) by omega)]
        rw [if_pos trivial, if_pos hH]
      simp only [runFrees, hstep]
    | cons bn₂ rest₂ =>
      obtain ⟨b₂, n₂⟩ := bn₂
      have hn₂ : 0 < n₂ := hch'.2.1
      have hlt : b + n < H := by
        simp only [totalWords] at htot
        omega
      have hstep : freeToPool b n ⟨base, endPtr, H, b, 0⟩ =
          Except.ok ⟨base, endPtr, H, b + n, 0⟩ := by
        rw [freeToPool_unfold]
        simp only [if_neg (show ¬ ((b : Nat) + 0 = endPtr) by omega)]
        rw [if_pos trivial, if_neg (show ¬ ((b : Nat) + n = H) by omega)]
      simp only [runFrees, hstep]
      exact ih (b + n) H (by omega) hch'
        (by simp only [totalWords] at htot ⊢; omega) hHe (by simp)

/-- C5: for every sequence of successful `allocateFromPool` calls starting
from the empty ring, retiring the granted buffers with their granted sizes
in the same order via `freeToPool` returns the ring to the empty state
(`tail = sentinel`, `head = base`, `skipped = 0`). -/
theorem allocate_then_free_roundtrip (base endPtr : Nat) (ws : List Nat)
    (l : List (Nat × Nat)) (s' : PoolState) (hb : 0 < base)
    (h : runAllocs ws ⟨base, endPtr, base, 0, 0⟩ = Except.ok (l, s')) :
    runFrees l s' = Except.ok ⟨base, endPtr, base, 0, 0⟩ := by
  cases ws with
  | nil =>
    simp only [runAllocs, Except.ok.injEq, Prod.mk.injEq] at h
    obtain ⟨h1, h2⟩ := h
    subst h1
    subst h2
    simp [runFrees]
  | cons w ws =>
    by_cases habort : max 0x100 w > endPtr - base
    · have hstep : allocateFromPool w ⟨base, endPtr, base, 0, 0⟩ = Except.error () := by
        simp only [allocateFromPool, if_pos habort]
      simp only [runAllocs, hstep] at h
      exact Except.noConfusion h
    · have hstep : allocateFromPool w ⟨base, endPtr, base, 0, 0⟩ =
          Except.ok (some (base, min 0x20000 (endPtr - base)),
            ⟨base, endPtr, base + min 0x20000 (endPtr - base), base, 0⟩) := by
        simp only [allocateFromPool, grant, if_neg habort]
        simp
      simp only [runAllocs, hstep] at h
      cases hrec : runAllocs ws ⟨base, endPtr, base + min 0x20000 (endPtr - base), base, 0⟩ with
      | error e =>
        cases e
        rw [hrec] at h
        exact Except.noConfusion h
      | ok p =>
        obtain ⟨l', s₂⟩ := p
        rw [hrec] at h
        simp only [Except.ok.injEq, Prod.mk.injEq] at h
        obtain ⟨h1, h2⟩ := h
        subst h1
        subst h2
        have hn0 : 0 < min 0x20000 (endPtr - base) := by omega
        have hble : base + min 0x20000 (endPtr - base) ≤ endPtr := by omega
        obtain ⟨hs₂, hch, hle⟩ := runAllocs_shape base endPtr hb ws
          (base + min 0x20000 (endPtr - base)) l' s₂ (by omega) hble hrec
        subst hs₂
        exact runFrees_chain base endPtr hb ((base, min 0x20000 (endPtr - base)) :: l')
          base (base + min 0x20000 (endPtr - base) + totalWords l') hb
          ⟨rfl, hn0, hch⟩ (by simp only [totalWords]; omega) hle (by simp)

/-- Witness for C5: two full 0x20000-word allocations from a 0x40000-word
pool, retired in order, return the ring to empty. -/
theorem allocate_then_free_roundtrip_witness :
    runFrees [(1, 0x20000), (0x20001, 0x20000)] ⟨1, 0x40001, 0x40001, 1, 0⟩ =
      Except.ok ⟨1, 0x40001, 1, 0, 0⟩ :=
  allocate_then_free_roundtrip 1 0x40001 [0, 0] [(1, 0x20000), (0x20001, 0x20000)]
    ⟨1, 0x40001, 0x40001, 1, 0⟩ (by decide) (by rfl)
